import Mathlib

/-!
Verification of the VercelCleanStREA streaming service core
(identifier codec, HTTP range resolution, the streaming/download
handlers, the rate-limited session manager and the stream wrapper),
as a shallow embedding of `src/index.py`, `src/api/stream.py` and
`src/api/download.py`.
-/

namespace VCS

/-!
### Digit rendering and parsing

Python renders identifiers with `hex(n)[2:]` and message ids with
`str(n)`, and parses them with `int(s, 16)` / `int(s)`.  We model the
renderings with explicit fuel-driven digit extraction (fuel `n` is
always enough since `n / base < n`), and digit-run parsing as a left
fold over the characters.  `int(s, 16)`, as `decode_id` applies it to
arbitrary tokens, is modelled in full by `pyIntHex?` below, including
its tolerance for surrounding whitespace, an explicit sign, a
`0x`/`0X` prefix and underscores between digits.  The decimal parser
`decToNat?` models `int` restricted to plain digit strings: it is only
ever applied to the sliced `Range`-header pieces, and the range
theorems instantiate it solely on canonical digit renders, where it
coincides with Python's `int` (the pieces can never contain a `-`
sign, having been split on `-`).
-/

/-- Little-endian base-`base` digits of `n`, driven by `fuel`. -/
def natDigitsAux (base : Nat) : Nat → Nat → List Nat
  | 0, _ => []
  | _, 0 => []
  | fuel + 1, n + 1 => (n + 1) % base :: natDigitsAux base fuel ((n + 1) / base)

/-- Little-endian base-`base` digits of `n` (`fuel := n` suffices). -/
def natDigits (base n : Nat) : List Nat := natDigitsAux base n n

/-- Value of a little-endian digit list. -/
def digitsVal (base : Nat) (l : List Nat) : Nat :=
  l.foldr (fun d a => d + base * a) 0

theorem digitsVal_nil (base : Nat) : digitsVal base [] = 0 := rfl

theorem digitsVal_cons (base d : Nat) (l : List Nat) :
    digitsVal base (d :: l) = d + base * digitsVal base l := rfl

theorem digitsVal_natDigitsAux (base : Nat) (hb : 2 ≤ base) :
    ∀ fuel n, n ≤ fuel → digitsVal base (natDigitsAux base fuel n) = n := by
  intro fuel
  induction fuel with
  | zero =>
    intro n hn
    interval_cases n
    simp [natDigitsAux, digitsVal]
  | succ fuel ih =>
    intro n hn
    match n with
    | 0 => simp [natDigitsAux, digitsVal]
    | m + 1 =>
      have hdiv : (m + 1) / base ≤ fuel := by
        have h1 : (m + 1) / base < m + 1 :=
          Nat.div_lt_self (Nat.succ_pos m) (by omega)
        omega
      rw [natDigitsAux, digitsVal_cons, ih _ hdiv]
      exact Nat.mod_add_div (m + 1) base

theorem digitsVal_natDigits (base n : Nat) (hb : 2 ≤ base) :
    digitsVal base (natDigits base n) = n :=
  digitsVal_natDigitsAux base hb n n le_rfl

theorem natDigitsAux_lt (base : Nat) (hb : 0 < base) :
    ∀ fuel n d, d ∈ natDigitsAux base fuel n → d < base := by
  intro fuel
  induction fuel with
  | zero => intro n d hd; simp [natDigitsAux] at hd
  | succ fuel ih =>
    intro n d hd
    match n with
    | 0 => simp [natDigitsAux] at hd
    | m + 1 =>
      rw [natDigitsAux] at hd
      rcases List.mem_cons.mp hd with h | h
      · subst h; exact Nat.mod_lt _ hb
      · exact ih _ _ h

theorem natDigits_lt (base n : Nat) (hb : 0 < base) :
    ∀ d ∈ natDigits base n, d < base :=
  fun d hd => natDigitsAux_lt base hb n n d hd

theorem natDigits_ne_nil (base m : Nat) : natDigits base (m + 1) ≠ [] := by
  rw [natDigits, natDigitsAux]
  simp

/-- Character for one hexadecimal digit, lowercase, as produced by
Python's `hex`. -/
def hexDigitChar (d : Nat) : Char :=
  if d < 10 then Char.ofNat (48 + d) else Char.ofNat (87 + d)

/-- Character for one decimal digit, as produced by Python's `str`. -/
def decDigitChar (d : Nat) : Char := Char.ofNat (48 + d)

/-- Characters of `hex(n)[2:]`: lowercase hexadecimal, no prefix, no
padding, and `"0"` for zero. -/
def natToHexChars (n : Nat) : List Char :=
  if n = 0 then ['0'] else ((natDigits 16 n).map hexDigitChar).reverse

/-- Models Python `hex(n)[2:]` for non-negative `n`. -/
def natToHex (n : Nat) : String := String.mk (natToHexChars n)

/-- Characters of `str(n)` for a non-negative integer. -/
def natToDecChars (n : Nat) : List Char :=
  if n = 0 then ['0'] else ((natDigits 10 n).map decDigitChar).reverse

/-- Models Python `str(n)` for non-negative `n`. -/
def natToDec (n : Nat) : String := String.mk (natToDecChars n)

/-- Value of one hexadecimal digit character (both cases accepted,
as by Python's `int(_, 16)`). -/
def hexDigitVal? (c : Char) : Option Nat :=
  if '0' ≤ c ∧ c ≤ '9' then some (c.toNat - 48)
  else if 'a' ≤ c ∧ c ≤ 'f' then some (c.toNat - 87)
  else if 'A' ≤ c ∧ c ≤ 'F' then some (c.toNat - 55)
  else none

/-- Value of one decimal digit character. -/
def decDigitVal? (c : Char) : Option Nat :=
  if '0' ≤ c ∧ c ≤ '9' then some (c.toNat - 48) else none

/-- Big-endian digit-string parser: fold the digit values left to
right, failing on the first character that is not a digit. -/
def parseDigitsAux (base : Nat) (digitVal : Char → Option Nat) :
    Nat → List Char → Option Nat
  | acc, [] => some acc
  | acc, c :: cs =>
    match digitVal c with
    | none => none
    | some d => parseDigitsAux base digitVal (acc * base + d) cs

/-- Models Python `int(s)` on plain decimal digit strings; the empty
string is rejected, as `int('')` raises `ValueError`. -/
def decToNat? (l : List Char) : Option Nat :=
  if l = [] then none else parseDigitsAux 10 decDigitVal? 0 l

theorem hexDigitVal?_hexDigitChar (d : Nat) (hd : d < 16) :
    hexDigitVal? (hexDigitChar d) = some d := by
  interval_cases d <;> decide

theorem decDigitVal?_decDigitChar (d : Nat) (hd : d < 10) :
    decDigitVal? (decDigitChar d) = some d := by
  interval_cases d <;> decide

theorem parseDigitsAux_append (base : Nat) (dval : Char → Option Nat)
    (xs ys : List Char) : ∀ acc,
    parseDigitsAux base dval acc (xs ++ ys) =
      (parseDigitsAux base dval acc xs).bind
        (fun a => parseDigitsAux base dval a ys) := by
  induction xs with
  | nil => intro acc; simp [parseDigitsAux]
  | cons c cs ih =>
    intro acc
    rw [List.cons_append, parseDigitsAux, parseDigitsAux]
    cases dval c with
    | none => simp
    | some d => exact ih _

theorem parseDigitsAux_render (base : Nat) (dchar : Nat → Char)
    (dval : Char → Option Nat)
    (hdv : ∀ d, d < base → dval (dchar d) = some d) :
    ∀ (L : List Nat), (∀ d ∈ L, d < base) → ∀ acc,
    parseDigitsAux base dval acc ((L.map dchar).reverse) =
      some (acc * base ^ L.length + digitsVal base L) := by
  intro L
  induction L with
  | nil => intro _ acc; simp [parseDigitsAux, digitsVal]
  | cons d t ih =>
    intro hL acc
    have hd : d < base := hL d (List.mem_cons_self d t)
    have ht : ∀ x ∈ t, x < base := fun x hx => hL x (List.mem_cons_of_mem _ hx)
    rw [List.map_cons, List.reverse_cons, parseDigitsAux_append, ih ht acc,
      Option.some_bind]
    simp only [parseDigitsAux, hdv d hd]
    rw [digitsVal_cons, List.length_cons]
    congr 1
    ring

theorem parseDigitsAux_natToHexChars (n : Nat) :
    parseDigitsAux 16 hexDigitVal? 0 (natToHexChars n) = some n := by
  by_cases h0 : n = 0
  · subst h0; decide
  · rw [natToHexChars, if_neg h0]
    obtain ⟨m, rfl⟩ : ∃ m, n = m + 1 := ⟨n - 1, by omega⟩
    rw [parseDigitsAux_render 16 hexDigitChar hexDigitVal?
      hexDigitVal?_hexDigitChar _ (natDigits_lt 16 (m + 1) (by omega)) 0]
    rw [digitsVal_natDigits 16 (m + 1) (by omega)]
    simp

theorem decToNat?_natToDecChars (n : Nat) :
    decToNat? (natToDecChars n) = some n := by
  by_cases h0 : n = 0
  · subst h0; decide
  · rw [natToDecChars, if_neg h0]
    obtain ⟨m, rfl⟩ : ∃ m, n = m + 1 := ⟨n - 1, by omega⟩
    have hne : ((natDigits 10 (m + 1)).map decDigitChar).reverse ≠ [] := by
      simp [natDigits_ne_nil]
    rw [decToNat?, if_neg hne]
    rw [parseDigitsAux_render 10 decDigitChar decDigitVal?
      decDigitVal?_decDigitChar _ (natDigits_lt 10 (m + 1) (by omega)) 0]
    rw [digitsVal_natDigits 10 (m + 1) (by omega)]
    simp

/-!
### Python `int(s, 16)`

`decode_id` calls `int(encoded_id, 16)` on an arbitrary token.
CPython accepts: optional surrounding whitespace, an optional single
`+`/`-` sign, an optional `0x`/`0X` base prefix (after which one
underscore is permitted), and then a run of hexadecimal digits with
single underscores allowed only between digits; anything else raises
`ValueError`.  `pyIntHex?` implements exactly this pipeline on the
character list (`none` models the raised `ValueError`).  The
whitespace set is the ASCII one (plus U+0085); CPython additionally
maps non-ASCII decimal digits and non-ASCII spaces to ASCII before
parsing, which is why the rejection theorem below restricts its
offending character to ASCII.  Since a signed token such as `-1a`
parses to a negative integer, values are `Int`, and `intXor` is
Python's bitwise XOR on unbounded integers (two's complement on
negatives: `-a = ~(a - 1)`).
-/

def pySpaceChars : List Char :=
  [' ', '\t', '\n', '\r', '\x0b', '\x0c', '\x1c', '\x1d', '\x1e', '\x1f',
    '\x85']

/-- Whitespace stripped by `int()` around the number. -/
def pySpace (c : Char) : Bool := decide (c ∈ pySpaceChars)

def dropLeadingSpace : List Char → List Char
  | [] => []
  | c :: cs => if pySpace c then dropLeadingSpace cs else c :: cs

/-- Python's surrounding-whitespace strip (both ends). -/
def pyStrip (l : List Char) : List Char :=
  (dropLeadingSpace (dropLeadingSpace l).reverse).reverse

/-- The optional sign, as a multiplier plus the rest of the string. -/
def parseSign : List Char → Int × List Char
  | [] => (1, [])
  | c :: cs =>
    if c = '+' then (1, cs)
    else if c = '-' then ((-1 : Int), cs)
    else (1, c :: cs)

/-- After the `0x` prefix CPython permits one single underscore. -/
def dropOneUnderscore : List Char → List Char
  | '_' :: r2 => r2
  | l => l

/-- The optional `0x`/`0X` base marker (with its one permitted
trailing underscore). -/
def dropHexBaseMarker (l : List Char) : List Char :=
  match l with
  | c0 :: c1 :: rest =>
    if c0 = '0' ∧ (c1 = 'x' ∨ c1 = 'X') then dropOneUnderscore rest else l
  | _ => l

/-- Classification of one character of the digit run: a hexadecimal
digit, an underscore, or anything else (which `int` rejects). -/
inductive HexTok where
  | digit (d : Nat)
  | score
  | bad
deriving Repr, DecidableEq

def hexTok (c : Char) : HexTok :=
  match hexDigitVal? c with
  | some d => HexTok.digit d
  | none => if c = '_' then HexTok.score else HexTok.bad

/-- The digit run `digit (underscore? digit)*` over the classified
characters: an underscore must be followed by a digit, never doubled,
never trailing (`flag` records that the previous character was an
underscore).  The leading-underscore rejection is `pyIntHex?`'s
explicit head check. -/
def parseHexRun : Nat → Bool → List HexTok → Option Nat
  | acc, false, [] => some acc
  | _, true, [] => none
  | acc, _, HexTok.digit d :: ts => parseHexRun (acc * 16 + d) false ts
  | acc, false, HexTok.score :: ts => parseHexRun acc true ts
  | _, true, HexTok.score :: _ => none
  | _, _, HexTok.bad :: _ => none

/-- The digit run of `int(s, 16)` on the raw characters. -/
def parseHexDigits (acc : Nat) (l : List Char) : Option Nat :=
  parseHexRun acc false (l.map hexTok)

/-- Python's bitwise XOR on unbounded integers (`Int.negSucc n`
is `~n`). -/
def intXor : Int → Int → Int
  | Int.ofNat m, Int.ofNat n => Int.ofNat (m ^^^ n)
  | Int.ofNat m, Int.negSucc n => Int.negSucc (m ^^^ n)
  | Int.negSucc m, Int.ofNat n => Int.negSucc (m ^^^ n)
  | Int.negSucc m, Int.negSucc n => Int.ofNat (m ^^^ n)

/-- Models Python `int(s, 16)` on the character list: strip
surrounding whitespace, read an optional sign, drop an optional
`0x`/`0X` marker (with one permitted underscore), reject an empty or
underscore-leading remainder, then parse the digit run. -/
def pyIntHex? (l : List Char) : Option Int :=
  let stripped := pyStrip l
  let signed := parseSign stripped
  let l3 := dropHexBaseMarker signed.2
  match l3 with
  | [] => none
  | c :: _ =>
    if c = '_' then none
    else (parseHexDigits 0 l3).map (fun v => signed.1 * (v : Int))

theorem natToHexChars_mem (n : Nat) :
    ∀ c ∈ natToHexChars n, ∃ d, d < 16 ∧ c = hexDigitChar d := by
  intro c hc
  rw [natToHexChars] at hc
  split at hc
  · simp at hc
    exact ⟨0, by omega, by rw [hc]; decide⟩
  · rw [List.mem_reverse] at hc
    obtain ⟨d, hd, rfl⟩ := List.mem_map.mp hc
    exact ⟨d, natDigits_lt 16 n (by omega) d hd, rfl⟩

theorem natToHexChars_hex (n : Nat) :
    ∀ c ∈ natToHexChars n, (hexDigitVal? c).isSome = true := by
  intro c hc
  obtain ⟨d, hd, rfl⟩ := natToHexChars_mem n c hc
  rw [hexDigitVal?_hexDigitChar d hd]
  rfl

theorem natToHexChars_ne_nil (n : Nat) : natToHexChars n ≠ [] := by
  rw [natToHexChars]
  split
  · simp
  · rename_i h0
    obtain ⟨m, rfl⟩ : ∃ m, n = m + 1 := ⟨n - 1, by omega⟩
    simp [natDigits_ne_nil]

theorem hex_char_classes (c : Char) (h : (hexDigitVal? c).isSome = true) :
    pySpace c = false ∧ c ≠ '+' ∧ c ≠ '-' ∧ c ≠ '_' ∧ c ≠ 'x' ∧ c ≠ 'X' := by
  refine ⟨?_, ?_, ?_, ?_, ?_, ?_⟩
  · by_contra hsp
    rw [Bool.not_eq_false] at hsp
    have hmem := of_decide_eq_true hsp
    simp only [pySpaceChars, List.mem_cons, List.not_mem_nil, or_false] at hmem
    rcases hmem with rfl | rfl | rfl | rfl | rfl | rfl | rfl | rfl | rfl |
        rfl | rfl <;>
      exact absurd h (by decide)
  · rintro rfl; exact absurd h (by decide)
  · rintro rfl; exact absurd h (by decide)
  · rintro rfl; exact absurd h (by decide)
  · rintro rfl; exact absurd h (by decide)
  · rintro rfl; exact absurd h (by decide)

theorem dropLeadingSpace_id (l : List Char)
    (h : ∀ c ∈ l, pySpace c = false) : dropLeadingSpace l = l := by
  cases l with
  | nil => rfl
  | cons c cs =>
    have hc := h c (List.mem_cons_self c cs)
    simp [dropLeadingSpace, hc]

theorem pyStrip_id (l : List Char) (h : ∀ c ∈ l, pySpace c = false) :
    pyStrip l = l := by
  rw [pyStrip, dropLeadingSpace_id l h, dropLeadingSpace_id l.reverse
    (fun c hc => h c (List.mem_reverse.mp hc)), List.reverse_reverse]

theorem parseSign_of_ne (c : Char) (cs : List Char) (h1 : c ≠ '+')
    (h2 : c ≠ '-') : parseSign (c :: cs) = (1, c :: cs) := by
  simp [parseSign, h1, h2]

theorem dropHexBaseMarker_of_ne (c0 c1 : Char) (rest : List Char)
    (hx : c1 ≠ 'x') (hX : c1 ≠ 'X') :
    dropHexBaseMarker (c0 :: c1 :: rest) = c0 :: c1 :: rest := by
  simp only [dropHexBaseMarker]
  rw [if_neg]
  rintro ⟨_, hor⟩
  rcases hor with h | h
  · exact hx h
  · exact hX h

theorem parseHexDigits_all_hex :
    ∀ (l : List Char), (∀ c ∈ l, (hexDigitVal? c).isSome = true) → ∀ acc,
      parseHexDigits acc l = parseDigitsAux 16 hexDigitVal? acc l := by
  intro l
  induction l with
  | nil => intro _ acc; rfl
  | cons c cs ih =>
    intro h acc
    have hc := h c (List.mem_cons_self c cs)
    rw [Option.isSome_iff_exists] at hc
    obtain ⟨d, hd⟩ := hc
    have htok : hexTok c = HexTok.digit d := by simp [hexTok, hd]
    simp only [parseHexDigits, List.map_cons, htok, parseHexRun,
      parseDigitsAux, hd]
    exact ih (fun x hx => h x (List.mem_cons_of_mem _ hx)) _

theorem pyIntHex?_plainHex (l : List Char) (hne : l ≠ [])
    (h : ∀ c ∈ l, (hexDigitVal? c).isSome = true) :
    pyIntHex? l = (parseDigitsAux 16 hexDigitVal? 0 l).map Int.ofNat := by
  obtain ⟨c0, cs, rfl⟩ : ∃ c0 cs, l = c0 :: cs := by
    cases l with
    | nil => exact absurd rfl hne
    | cons a b => exact ⟨a, b, rfl⟩
  have hclasses := fun c hc => hex_char_classes c (h c hc)
  have hstrip : pyStrip (c0 :: cs) = c0 :: cs :=
    pyStrip_id _ (fun c hc => (hclasses c hc).1)
  have hc0 := hclasses c0 (List.mem_cons_self c0 cs)
  have hsign : parseSign (c0 :: cs) = (1, c0 :: cs) :=
    parseSign_of_ne c0 cs hc0.2.1 hc0.2.2.1
  have hmarker : dropHexBaseMarker (c0 :: cs) = c0 :: cs := by
    cases cs with
    | nil => rfl
    | cons c1 rest =>
      have hc1 := hclasses c1 (by simp)
      exact dropHexBaseMarker_of_ne c0 c1 rest hc1.2.2.2.2.1 hc1.2.2.2.2.2
  simp only [pyIntHex?, hstrip, hsign, hmarker]
  rw [if_neg hc0.2.2.2.1]
  rw [parseHexDigits_all_hex _ h 0]
  cases hp : parseDigitsAux 16 hexDigitVal? 0 (c0 :: cs) with
  | none => rfl
  | some v => simp

theorem mem_dropLeadingSpace (l : List Char) (c : Char) (hc : c ∈ l)
    (hs : pySpace c = false) : c ∈ dropLeadingSpace l := by
  induction l with
  | nil => simp at hc
  | cons c0 cs ih =>
    by_cases h0 : pySpace c0 = true
    · simp only [dropLeadingSpace, if_pos h0]
      rcases List.mem_cons.mp hc with h | h
      · subst h; exact absurd h0 (by simp [hs])
      · exact ih h
    · simp only [dropLeadingSpace, if_neg h0]
      exact hc

theorem mem_pyStrip (l : List Char) (c : Char) (hc : c ∈ l)
    (hs : pySpace c = false) : c ∈ pyStrip l := by
  rw [pyStrip, List.mem_reverse]
  apply mem_dropLeadingSpace _ _ _ hs
  rw [List.mem_reverse]
  exact mem_dropLeadingSpace l c hc hs

theorem mem_parseSign_snd (l : List Char) (c : Char) (hc : c ∈ l)
    (h1 : c ≠ '+') (h2 : c ≠ '-') : c ∈ (parseSign l).2 := by
  cases l with
  | nil => simp at hc
  | cons c0 cs =>
    simp only [parseSign]
    by_cases hp : c0 = '+'
    · rw [if_pos hp]
      rcases List.mem_cons.mp hc with h | h
      · exact absurd (h.trans hp) h1
      · exact h
    · rw [if_neg hp]
      by_cases hm : c0 = '-'
      · rw [if_pos hm]
        rcases List.mem_cons.mp hc with h | h
        · exact absurd (h.trans hm) h2
        · exact h
      · rw [if_neg hm]
        exact hc

theorem mem_dropOneUnderscore (l : List Char) (c : Char) (hc : c ∈ l)
    (hu : c ≠ '_') : c ∈ dropOneUnderscore l := by
  cases l with
  | nil => simp at hc
  | cons c0 cs =>
    by_cases h0 : c0 = '_'
    · subst h0
      have hred : dropOneUnderscore ('_' :: cs) = cs := rfl
      rw [hred]
      rcases List.mem_cons.mp hc with h | h
      · exact absurd h hu
      · exact h
    · have hred : dropOneUnderscore (c0 :: cs) = c0 :: cs := by
        rw [dropOneUnderscore.eq_def]
        split
        · rename_i r2 heq
          injection heq with hh _
          exact absurd hh h0
        · rfl
      rw [hred]
      exact hc

theorem mem_dropHexBaseMarker (l : List Char) (c : Char) (hc : c ∈ l)
    (h0 : c ≠ '0') (hx : c ≠ 'x') (hX : c ≠ 'X') (hu : c ≠ '_') :
    c ∈ dropHexBaseMarker l := by
  cases l with
  | nil => simp at hc
  | cons c0 cs =>
    cases cs with
    | nil => exact hc
    | cons c1 rest =>
      by_cases hpre : c0 = '0' ∧ (c1 = 'x' ∨ c1 = 'X')
      · have hcr : c ∈ rest := by
          rcases List.mem_cons.mp hc with h | h
          · exact absurd (h.trans hpre.1) h0
          · rcases List.mem_cons.mp h with h | h
            · rcases hpre.2 with hx1 | hx1
              · exact absurd (h.trans hx1) hx
              · exact absurd (h.trans hx1) hX
            · exact h
        simp only [dropHexBaseMarker, if_pos hpre]
        exact mem_dropOneUnderscore rest c hcr hu
      · simp only [dropHexBaseMarker, if_neg hpre]
        exact hc

theorem parseHexRun_bad : ∀ (ts : List HexTok), HexTok.bad ∈ ts →
    ∀ acc flag, parseHexRun acc flag ts = none := by
  intro ts
  induction ts with
  | nil => intro h; simp at h
  | cons t rest ih =>
    intro h acc flag
    cases t with
    | digit d =>
      have hrest : HexTok.bad ∈ rest := by
        rcases List.mem_cons.mp h with h | h
        · simp at h
        · exact h
      simp only [parseHexRun]
      exact ih hrest _ _
    | score =>
      cases flag with
      | false =>
        have hrest : HexTok.bad ∈ rest := by
          rcases List.mem_cons.mp h with h | h
          · simp at h
          · exact h
        simp only [parseHexRun]
        exact ih hrest _ _
      | true => rfl
    | bad =>
      cases flag <;> rfl

theorem parseHexDigits_none_of_bad (l : List Char) (acc : Nat) (c : Char)
    (hc : c ∈ l) (hval : hexDigitVal? c = none) (hcu : c ≠ '_') :
    parseHexDigits acc l = none := by
  have htok : hexTok c = HexTok.bad := by simp [hexTok, hval, hcu]
  have hmem : HexTok.bad ∈ l.map hexTok := by
    rw [← htok]
    exact List.mem_map_of_mem hexTok hc
  show parseHexRun acc false (l.map hexTok) = none
  exact parseHexRun_bad _ hmem _ _

theorem pyIntHex?_none_of_bad (l : List Char) (c : Char) (hc : c ∈ l)
    (hval : hexDigitVal? c = none) (hsp : pySpace c = false)
    (hplus : c ≠ '+') (hminus : c ≠ '-') (hu : c ≠ '_')
    (hx : c ≠ 'x') (hX : c ≠ 'X') :
    pyIntHex? l = none := by
  have h0 : c ≠ '0' := by rintro rfl; exact absurd hval (by decide)
  have h1 : c ∈ pyStrip l := mem_pyStrip l c hc hsp
  have h2 : c ∈ (parseSign (pyStrip l)).2 :=
    mem_parseSign_snd _ c h1 hplus hminus
  have h3 : c ∈ dropHexBaseMarker (parseSign (pyStrip l)).2 :=
    mem_dropHexBaseMarker _ c h2 h0 hx hX hu
  simp only [pyIntHex?]
  split
  · rfl
  · rename_i d ds heq
    rw [heq] at h3
    by_cases hd : d = '_'
    · rw [if_pos hd]
    · rw [if_neg hd]
      rw [heq, parseHexDigits_none_of_bad (d :: ds) 0 c h3 hval hu]
      rfl

/-!
### Identifier codec (`src/index.py` lines 100-112)

`SECRET_KEY` defaults to `742658931` (`src/index.py` line 52); the
environment override is out of scope, the claims are about the fixed
key.  `encode_id` XORs and renders as unprefixed lowercase hex;
`decode_id` parses hex and XORs back, raising `ValueError` (modelled
as `none`) when `int(encoded_id, 16)` fails.
-/

def SECRET_KEY : Nat := 742658931

/-- `encode_id` from `src/index.py` lines 100-103. -/
def encode_id (msg_id : Nat) : String := natToHex (msg_id ^^^ SECRET_KEY)

/-- `decode_id` from `src/index.py` lines 106-112; `none` models the
raised `ValueError` (`InvalidToken`).  `int(encoded_id, 16)` is
`pyIntHex?`, and the XOR is Python's on unbounded (possibly negative)
integers. -/
def decode_id (encoded_id : String) : Option Int :=
  (pyIntHex? encoded_id.data).map
    (fun obfuscated => intXor obfuscated (SECRET_KEY : Int))

theorem decode_id_encode_id (x : Nat) : decode_id (encode_id x) = some x := by
  rw [decode_id, encode_id, natToHex]
  show (pyIntHex? (natToHexChars (x ^^^ SECRET_KEY))).map _ = _
  rw [pyIntHex?_plainHex _ (natToHexChars_ne_nil _) (natToHexChars_hex _),
    parseDigitsAux_natToHexChars]
  show some (intXor (Int.ofNat (x ^^^ SECRET_KEY)) (Int.ofNat SECRET_KEY)) =
    some (x : Int)
  show some (Int.ofNat ((x ^^^ SECRET_KEY) ^^^ SECRET_KEY)) = some (x : Int)
  rw [Nat.xor_assoc, Nat.xor_self, Nat.xor_zero]
  rfl

/-- C1: for every representable non-negative 64-bit integer `x`,
`decode_id (encode_id x) = x`, where `encode_id` XORs `x` with the
fixed `SECRET_KEY` and renders unprefixed lowercase hexadecimal and
`decode_id` parses hexadecimal and XORs with the same key. -/
theorem id_codec_roundtrip (x : Nat) (hx : x < 2 ^ 64) :
    decode_id (encode_id x) = some x :=
  decode_id_encode_id x

theorem id_codec_roundtrip_witness :
    42 < 2 ^ 64 ∧ decode_id (encode_id 42) = some 42 :=
  ⟨by decide, id_codec_roundtrip 42 (by decide)⟩

/-!
### Range-header resolution

`src/api/stream.py` lines 96-107, `src/api/download.py` lines 101-112
and `src/index.py` lines 1417-1426 all contain the identical parsing
block:

    start, end = 0, size - 1
    if range_header:
        rv = range_header.replace('bytes=', '').split('-')
        start = int(rv[0]) if rv[0] else 0
        end = int(rv[1]) if len(rv) > 1 and rv[1] else end
        end = min(end, size - 1)
    length = end - start + 1

We embed it over the header's character list.  `replaceBytes` is
Python's `str.replace('bytes=', '')` (delete every non-overlapping
occurrence, scanning left to right); `splitOnDash` is `str.split('-')`
(which never returns an empty list and keeps empty pieces).  A failed
`int` conversion raises `ValueError`, modelled by `none`; every caller
wraps the block in a `try`/`except` that turns any exception into a
500 response.
-/

/-- Python `header.replace('bytes=', '')` on the character list. -/
def replaceBytes : List Char → List Char
  | 'b' :: 'y' :: 't' :: 'e' :: 's' :: '=' :: rest => replaceBytes rest
  | c :: cs => c :: replaceBytes cs
  | [] => []

/-- Python `s.split('-')` on the character list. -/
def splitOnDash : List Char → List (List Char)
  | [] => [[]]
  | c :: cs =>
    if c = '-' then [] :: splitOnDash cs
    else
      match splitOnDash cs with
      | [] => [[c]]
      | p :: ps => (c :: p) :: ps

/-- The resolved byte range.  `ranged` corresponds to the spec's
`isPartial`: the source sets `start`/`end` away from the full-content
defaults, and later chooses status 206 and a `Content-Range` header,
exactly when the raw `Range` header was non-empty.  Values are `Int`
because Python computes `end - start + 1` on unbounded signed
integers (it can be zero or negative). -/
structure ResolvedRange where
  start : Int
  endInclusive : Int
  ranged : Bool
deriving Repr, DecidableEq

/-- The shared range-parsing block (see the section comment); `none`
models a `ValueError` escaping from `int`. -/
def resolveRange (size : Nat) (header : List Char) : Option ResolvedRange :=
  if header = [] then some ⟨0, (size : Int) - 1, false⟩
  else
    let rv := splitOnDash (replaceBytes header)
    let p0 := rv.headD []
    let startParse : Option Int :=
      if p0 = [] then some 0 else (decToNat? p0).map Int.ofNat
    let endParse : Option Int :=
      match rv with
      | _ :: p1 :: _ =>
        if p1 = [] then some ((size : Int) - 1)
        else (decToNat? p1).map Int.ofNat
      | _ => some ((size : Int) - 1)
    match startParse, endParse with
    | some s, some e => some ⟨s, min e ((size : Int) - 1), true⟩
    | _, _ => none

/-- Models Python `str` on an int (used in the `Content-Range`
f-string). -/
def intToDec (i : Int) : String :=
  if i < 0 then "-" ++ natToDec i.natAbs else natToDec i.natAbs

/-- The `Content-Range` value `f'bytes {start}-{end}/{size}'`. -/
def contentRangeValue (size : Nat) (r : ResolvedRange) : String :=
  "bytes " ++ intToDec r.start ++ "-" ++ intToDec r.endInclusive ++ "/" ++
    natToDec size

theorem resolveRange_no_header (size : Nat) :
    resolveRange size [] = some ⟨0, (size : Int) - 1, false⟩ := rfl

theorem resolveRange_200_299 :
    resolveRange 1000 "bytes=200-299".data = some ⟨200, 299, true⟩ := by
  decide

theorem resolveRange_900_open :
    resolveRange 1000 "bytes=900-".data = some ⟨900, 999, true⟩ := by
  decide

theorem resolveRange_clamped :
    resolveRange 1000 "bytes=0-5000".data = some ⟨0, 999, true⟩ := by
  decide

theorem resolveRange_suffix_as_start_zero :
    resolveRange 1000 "bytes=-500".data = some ⟨0, 500, true⟩ := by
  decide

/-!
### HTTP handlers

The handlers are embedded as functions of the request data and of the
remote store's answer.  A stored document is modelled by its id, size
and attribute list (an attribute either lacks a `file_name` field, as
probed by `hasattr`, or carries one; the empty string models a falsy
value).  `doc = none` covers both `not msg` and `not msg.document`,
which produce the same 404.  Each handler's `try`/`except Exception`
turns any raised exception (bad token, bad `int` in the range parse)
into a 500 `JSONResponse`.  Only the headers the claims speak about
are modelled; `Content-Type` resolution (`mimetypes.guess_type`) is an
external table lookup no claim depends on and is omitted from the
response record.
-/

structure HttpResponse where
  status : Nat
  contentLength : Option Int
  contentRange : Option String
  acceptRanges : Option String
  contentDisposition : Option String
deriving Repr, DecidableEq

/-- A `JSONResponse(...)`: only a status, none of the streaming
headers. -/
def errorResponse (code : Nat) : HttpResponse :=
  ⟨code, none, none, none, none⟩

/-- One element of `msg.document.attributes`: either an attribute
without a `file_name` field, or one with it (telethon's
`DocumentAttributeFilename`). -/
inductive DocAttr where
  | other
  | filename (name : String)
deriving Repr, DecidableEq

structure RemoteDoc where
  id : Nat
  size : Nat
  attrs : List DocAttr
deriving Repr, DecidableEq

/-- Filename scan of `src/index.py` lines 1401-1405 and 1466-1470:
start from `"file"`, take the first attribute whose `file_name` is
truthy. -/
def index_filename : List DocAttr → String
  | [] => "file"
  | .filename n :: rest => if n = "" then index_filename rest else n
  | .other :: rest => index_filename rest

/-- `get_filename` from `src/api/download.py` lines 35-40: return the
first attribute that has a `file_name` field (truthy or not), else
`f"file_{msg.document.id}"`. -/
def get_filename : List DocAttr → Nat → String
  | [], docId => "file_" ++ natToDec docId
  | .filename n :: _, _ => n
  | .other :: rest, docId => get_filename rest docId

/-- `stream_file` from `src/index.py` lines 1386-1449, as a function
of the token, of whether `SESSION_STRING` is set, of the remote
store's answer for the decoded id, and of the raw `Range` header
(`""` when absent, as `request.headers.get('range', '')`). -/
def stream_file (encoded_id : String) (hasSessionString : Bool)
    (doc : Option RemoteDoc) (rangeHeader : String) : HttpResponse :=
  match decode_id encoded_id with
  | none => errorResponse 500
  | some _ =>
    if hasSessionString = false then errorResponse 500
    else
      match doc with
      | none => errorResponse 404
      | some d =>
        match resolveRange d.size rangeHeader.data with
        | none => errorResponse 500
        | some r =>
          { status := if r.ranged then 206 else 200
            contentLength := some (r.endInclusive - r.start + 1)
            contentRange :=
              if r.ranged then some (contentRangeValue d.size r) else none
            acceptRanges := some "bytes"
            contentDisposition := some "inline" }

/-- `download_file` from `src/index.py` lines 1451-1486: no range
parsing at all, `Content-Length` is the full document size, the
`StreamingResponse` keeps its default status 200, and neither
`Accept-Ranges` nor `Content-Range` is emitted. -/
def download_file (encoded_id : String) (hasSessionString : Bool)
    (doc : Option RemoteDoc) : HttpResponse :=
  match decode_id encoded_id with
  | none => errorResponse 500
  | some _ =>
    if hasSessionString = false then errorResponse 500
    else
      match doc with
      | none => errorResponse 404
      | some d =>
        { status := 200
          contentLength := some (d.size : Int)
          contentRange := none
          acceptRanges := none
          contentDisposition :=
            some ("attachment; filename=\"" ++ index_filename d.attrs ++ "\"") }

/-- `stream_video` from `src/api/stream.py` lines 36-154.  `configOk`
stands for the `API_ID`/`API_HASH`/`SESSION_STRING` presence checks
(lines 40-59); the route takes the raw message id, so there is no
token decoding here. -/
def stream_video (configOk : Bool) (doc : Option RemoteDoc)
    (rangeHeader : String) : HttpResponse :=
  if configOk = false then errorResponse 500
  else
    match doc with
    | none => errorResponse 404
    | some d =>
      match resolveRange d.size rangeHeader.data with
      | none => errorResponse 500
      | some r =>
        { status := if r.ranged then 206 else 200
          contentLength := some (r.endInclusive - r.start + 1)
          contentRange :=
            if r.ranged then some (contentRangeValue d.size r) else none
          acceptRanges := some "bytes"
          contentDisposition := none }

/-- `download_file` from `src/api/download.py` lines 44-160 (named
apart from the `src/index.py` handler of the same name). -/
def download_file_api (configOk : Bool) (doc : Option RemoteDoc)
    (rangeHeader : String) : HttpResponse :=
  if configOk = false then errorResponse 500
  else
    match doc with
    | none => errorResponse 404
    | some d =>
      match resolveRange d.size rangeHeader.data with
      | none => errorResponse 500
      | some r =>
        { status := if r.ranged then 206 else 200
          contentLength := some (r.endInclusive - r.start + 1)
          contentRange :=
            if r.ranged then some (contentRangeValue d.size r) else none
          acceptRanges := some "bytes"
          contentDisposition :=
            some ("attachment; filename=\"" ++ get_filename d.attrs d.id ++ "\"") }

/-!
### Session manager

`setup_bot` (`src/index.py` lines 134-158) checks the process-wide
`FLOOD_WAIT_UNTIL` before connecting and re-raises after recording a
reported flood wait; `get_client` (`src/index.py` lines 82-90) — the
acquisition path actually used by `stream_file` and `download_file` —
never consults `FLOOD_WAIT_UNTIL` and connects whenever the global
client is absent or disconnected.  The transport's answer is a
parameter; a reported flood wait stands for the `"wait of N seconds"`
message the source scrapes with a regex.
-/

inductive ConnectOutcome where
  | ok
  | floodWait (seconds : Nat)
  | otherError
deriving Repr, DecidableEq

structure SetupResult where
  /-- `some rem` models the `FloodWait Active` exception raised before
  any connection attempt, carrying the remaining seconds. -/
  rateLimitedRemaining : Option Nat
  /-- whether `client.start(...)` was reached (a network attempt). -/
  connectAttempted : Bool
  /-- `FLOOD_WAIT_UNTIL` after the call. -/
  floodWaitUntilAfter : Nat
  /-- whether the `except` branch re-raised the transport error. -/
  startErrorRaised : Bool
deriving Repr, DecidableEq

/-- `setup_bot` from `src/index.py` lines 134-158. -/
def setup_bot (now floodWaitUntil : Nat) (transport : ConnectOutcome) :
    SetupResult :=
  if now < floodWaitUntil then
    ⟨some (floodWaitUntil - now), false, floodWaitUntil, false⟩
  else
    match transport with
    | .ok => ⟨none, true, floodWaitUntil, false⟩
    | .floodWait n => ⟨none, true, now + n, true⟩
    | .otherError => ⟨none, true, floodWaitUntil, true⟩

/-- `get_client` from `src/index.py` lines 82-90, returning whether a
network connection attempt is made.  `floodWaitUntil` and `now` are in
scope as process state but the function reads neither; it never raises
a rate-limit error. -/
def get_client (floodWaitUntil now : Nat)
    (globalClientConnected : Bool) : Bool :=
  if globalClientConnected then false else true

/-!
### Stream wrapper

`TelegramStreamWrapper.__aiter__` is, in both copies,

    try:
        async for chunk in self.iterator:
            yield chunk
    ...finally-block...

with `finally: await self.client.disconnect()` in `src/api/stream.py`
lines 20-32 (and `src/api/download.py` lines 20-32), and a `finally:
pass` (plus an `except` that swallows mid-stream errors) in
`src/index.py` lines 21-34.  We run the generator against a remote
store whose successive chunk fetches are given by `fetches` (each
either yields a chunk or raises), and a consumer that accepts
`budget` chunks before disconnecting; closing the generator at a
`yield` runs the `finally` block.  The run records how many fetches
were issued and how many times the wrapper disconnected the client.
-/

inductive Pull where
  | chunk
  | fetchError
deriving Repr, DecidableEq

structure StreamRun where
  pulls : Nat
  released : Nat
deriving Repr, DecidableEq

/-- The `src/api/stream.py` / `src/api/download.py` wrapper: the
`finally` block disconnects the client. -/
def runWrapperApi : List Pull → Nat → StreamRun
  | _, 0 => ⟨0, 1⟩
  | [], _ + 1 => ⟨0, 1⟩
  | .fetchError :: _, _ + 1 => ⟨1, 1⟩
  | .chunk :: rest, budget + 1 =>
    let r := runWrapperApi rest budget
    ⟨r.pulls + 1, r.released⟩

/-- The `src/index.py` wrapper: the `finally` block is a `pass` (the
global client is kept for reuse), so the wrapper never disconnects. -/
def runWrapperIndex : List Pull → Nat → StreamRun
  | _, 0 => ⟨0, 0⟩
  | [], _ + 1 => ⟨0, 0⟩
  | .fetchError :: _, _ + 1 => ⟨1, 0⟩
  | .chunk :: rest, budget + 1 =>
    let r := runWrapperIndex rest budget
    ⟨r.pulls + 1, r.released⟩

/-!
### Facts about the range parser
-/

theorem replaceBytes_bytesEq (l : List Char) :
    replaceBytes ('b' :: 'y' :: 't' :: 'e' :: 's' :: '=' :: l) =
      replaceBytes l := rfl

theorem replaceBytes_cons_ne (c : Char) (cs : List Char) (hc : c ≠ 'b') :
    replaceBytes (c :: cs) = c :: replaceBytes cs := by
  rw [replaceBytes.eq_def]
  split
  · rename_i rest heq
    injection heq with h1 _
    exact absurd h1 hc
  · rename_i c2 cs2 hne heq
    injection heq with h1 h2
    rw [h1, h2]
  · rename_i hne heq
    simp at heq

theorem replaceBytes_id (l : List Char) (h : ∀ c ∈ l, c ≠ 'b') :
    replaceBytes l = l := by
  induction l with
  | nil => rfl
  | cons c cs ih =>
    rw [replaceBytes_cons_ne c cs (h c (List.mem_cons_self c cs))]
    rw [ih fun x hx => h x (List.mem_cons_of_mem _ hx)]

theorem splitOnDash_append (xs ys : List Char) (h : '-' ∉ xs) :
    splitOnDash (xs ++ '-' :: ys) = xs :: splitOnDash ys := by
  induction xs with
  | nil => simp [splitOnDash]
  | cons x xs ih =>
    have hx : x ≠ '-' := fun hh => h (hh ▸ List.mem_cons_self x xs)
    have hxs : '-' ∉ xs := fun hh => h (List.mem_cons_of_mem _ hh)
    rw [List.cons_append, splitOnDash, if_neg hx, ih hxs]

theorem splitOnDash_no_dash (xs : List Char) (h : '-' ∉ xs) :
    splitOnDash xs = [xs] := by
  induction xs with
  | nil => rfl
  | cons x xs ih =>
    have hx : x ≠ '-' := fun hh => h (hh ▸ List.mem_cons_self x xs)
    have hxs : '-' ∉ xs := fun hh => h (List.mem_cons_of_mem _ hh)
    rw [splitOnDash, if_neg hx, ih hxs]

theorem natToDecChars_mem (n : Nat) :
    ∀ c ∈ natToDecChars n, ∃ d, d < 10 ∧ c = decDigitChar d := by
  intro c hc
  rw [natToDecChars] at hc
  split at hc
  · simp at hc
    exact ⟨0, by omega, by rw [hc]; decide⟩
  · rw [List.mem_reverse] at hc
    obtain ⟨d, hd, rfl⟩ := List.mem_map.mp hc
    exact ⟨d, natDigits_lt 10 n (by omega) d hd, rfl⟩

theorem decDigitChar_ne (d : Nat) (hd : d < 10) :
    decDigitChar d ≠ 'b' ∧ decDigitChar d ≠ '-' ∧ decDigitChar d ≠ ',' := by
  interval_cases d <;> exact ⟨by decide, by decide, by decide⟩

theorem natToDecChars_ne_b (n : Nat) : ∀ c ∈ natToDecChars n, c ≠ 'b' := by
  intro c hc
  obtain ⟨d, hd, rfl⟩ := natToDecChars_mem n c hc
  exact (decDigitChar_ne d hd).1

theorem natToDecChars_no_dash (n : Nat) : '-' ∉ natToDecChars n := by
  intro hc
  obtain ⟨d, hd, hcd⟩ := natToDecChars_mem n '-' hc
  exact (decDigitChar_ne d hd).2.1 hcd.symm

theorem natToDecChars_ne_nil (n : Nat) : natToDecChars n ≠ [] := by
  rw [natToDecChars]
  split
  · simp
  · rename_i h0
    obtain ⟨m, rfl⟩ : ∃ m, n = m + 1 := ⟨n - 1, by omega⟩
    simp [natDigits_ne_nil]

theorem parseDigitsAux_isSome (base : Nat) (dval : Char → Option Nat) :
    ∀ (l : List Char) acc, (∀ c ∈ l, (dval c).isSome = true) →
      (parseDigitsAux base dval acc l).isSome = true := by
  intro l
  induction l with
  | nil => intro acc _; rfl
  | cons c cs ih =>
    intro acc h
    have hc := h c (List.mem_cons_self c cs)
    simp only [parseDigitsAux]
    cases hv : dval c with
    | none => rw [hv] at hc; simp at hc
    | some d => exact ih _ fun x hx => h x (List.mem_cons_of_mem _ hx)

theorem parseDigitsAux_eq_none (base : Nat) (dval : Char → Option Nat) :
    ∀ (l : List Char) acc c, c ∈ l → dval c = none →
      parseDigitsAux base dval acc l = none := by
  intro l
  induction l with
  | nil => intro acc c hc _; simp at hc
  | cons c0 cs ih =>
    intro acc c hc hval
    simp only [parseDigitsAux]
    rcases List.mem_cons.mp hc with h | h
    · subst h; rw [hval]
    · cases hv : dval c0 with
      | none => rfl
      | some d => exact ih _ c h hval

/-- Rendering of the header `bytes=<start>-<end>` where either side of
the dash may be missing. -/
def optDigits : Option Nat → List Char
  | none => []
  | some n => natToDecChars n

/-- The single-range header `bytes=<start>-<end>` (a missing side of
the dash renders as nothing). -/
def renderRangeHeader (os oe : Option Nat) : String :=
  String.mk ('b' :: 'y' :: 't' :: 'e' :: 's' :: '=' ::
    (optDigits os ++ '-' :: optDigits oe))

/-- The two-range header `bytes=<a>-<b>,<c>-<d>`. -/
def renderMultiRangeHeader (a b c d : Nat) : String :=
  String.mk ('b' :: 'y' :: 't' :: 'e' :: 's' :: '=' ::
    (natToDecChars a ++ '-' ::
      (natToDecChars b ++ ',' :: (natToDecChars c ++ '-' :: natToDecChars d))))

theorem optDigits_ne_b (o : Option Nat) : ∀ c ∈ optDigits o, c ≠ 'b' := by
  cases o with
  | none => intro c hc; simp [optDigits] at hc
  | some n => exact natToDecChars_ne_b n

theorem optDigits_no_dash (o : Option Nat) : '-' ∉ optDigits o := by
  cases o with
  | none => simp [optDigits]
  | some n => exact natToDecChars_no_dash n

theorem decToNat?_optDigits (n : Nat) :
    decToNat? (optDigits (some n)) = some n :=
  decToNat?_natToDecChars n

theorem intToDec_coe (n : Nat) : intToDec (n : Int) = natToDec n := by
  rw [intToDec, if_neg (by omega), Int.natAbs_ofNat]

theorem resolveRange_renderRangeHeader (S : Nat) (hS : 1 ≤ S)
    (os oe : Option Nat) :
    resolveRange S (renderRangeHeader os oe).data =
      some ⟨((os.getD 0 : Nat) : Int),
            ((min (oe.getD (S - 1)) (S - 1) : Nat) : Int), true⟩ := by
  have hA : replaceBytes (optDigits os ++ '-' :: optDigits oe) =
      optDigits os ++ '-' :: optDigits oe := by
    apply replaceBytes_id
    intro c hc
    rcases List.mem_append.mp hc with h | h
    · exact optDigits_ne_b os c h
    · rcases List.mem_cons.mp h with h | h
      · subst h; decide
      · exact optDigits_ne_b oe c h
  have hsplit : splitOnDash (optDigits os ++ '-' :: optDigits oe) =
      [optDigits os, optDigits oe] := by
    rw [splitOnDash_append _ _ (optDigits_no_dash os),
      splitOnDash_no_dash _ (optDigits_no_dash oe)]
  show resolveRange S ('b' :: 'y' :: 't' :: 'e' :: 's' :: '=' ::
      (optDigits os ++ '-' :: optDigits oe)) = _
  rw [resolveRange.eq_def]
  rw [if_neg (List.cons_ne_nil _ _)]
  rw [replaceBytes_bytesEq, hA, hsplit]
  rcases os with _ | s <;> rcases oe with _ | e <;>
      simp [optDigits, natToDecChars_ne_nil, decToNat?_natToDecChars,
        ResolvedRange.mk.injEq] <;>
    omega

/-- C2: for every total size `S ≥ 1`, a request with no `Range` header
resolves to start `0`, inclusive end `S - 1`, full content with status
200; a request with header `bytes=<start>-<end>` defaults a missing
start to `0`, defaults a missing end to `S - 1`, clamps the end to
`min end (S - 1)`, and yields a partial response with status 206,
`Content-Length = end - start + 1` and a `Content-Range` header
`bytes <start>-<end>/<S>`. -/
theorem range_resolution (S : Nat) (hS : 1 ≤ S) (os oe : Option Nat)
    (i : Nat) (attrs : List DocAttr) :
    (resolveRange S [] = some ⟨0, (S : Int) - 1, false⟩ ∧
      stream_video true (some ⟨i, S, attrs⟩) "" =
        { status := 200, contentLength := some (S : Int),
          contentRange := none, acceptRanges := some "bytes",
          contentDisposition := none }) ∧
    (resolveRange S (renderRangeHeader os oe).data =
        some ⟨((os.getD 0 : Nat) : Int),
              ((min (oe.getD (S - 1)) (S - 1) : Nat) : Int), true⟩ ∧
      stream_video true (some ⟨i, S, attrs⟩) (renderRangeHeader os oe) =
        { status := 206,
          contentLength :=
            some (((min (oe.getD (S - 1)) (S - 1) : Nat) : Int) -
              ((os.getD 0 : Nat) : Int) + 1),
          contentRange := some ("bytes " ++ natToDec (os.getD 0) ++ "-" ++
            natToDec (min (oe.getD (S - 1)) (S - 1)) ++ "/" ++ natToDec S),
          acceptRanges := some "bytes",
          contentDisposition := none }) := by
  have h2 := resolveRange_renderRangeHeader S hS os oe
  have h0 : ("" : String).data = [] := rfl
  refine ⟨⟨rfl, ?_⟩, h2, ?_⟩
  · simp only [stream_video, h0, resolveRange_no_header]
    simp [HttpResponse.mk.injEq]
  · simp only [stream_video, h2]
    simp [HttpResponse.mk.injEq, contentRangeValue, intToDec_coe]
    rw [← Nat.cast_min, intToDec_coe]

theorem range_resolution_witness :
    (resolveRange 1000 [] = some ⟨0, 999, false⟩ ∧
      stream_video true (some ⟨1, 1000, []⟩) "" =
        { status := 200, contentLength := some 1000, contentRange := none,
          acceptRanges := some "bytes", contentDisposition := none }) ∧
    (resolveRange 1000 (renderRangeHeader (some 200) (some 299)).data =
        some ⟨200, 299, true⟩ ∧
      stream_video true (some ⟨1, 1000, []⟩)
          (renderRangeHeader (some 200) (some 299)) =
        { status := 206, contentLength := some 100,
          contentRange := some "bytes 200-299/1000",
          acceptRanges := some "bytes", contentDisposition := none }) :=
  range_resolution 1000 (by decide) (some 200) (some 299) 1 []

/-- C3: the code has no 416 path at all.  At total size 1000 with
header `bytes=1000-1005`, the shared parsing block clamps the end to
999 and leaves start at 1000, and both handlers answer 206 with
`Content-Length: 0` and the invalid `Content-Range: bytes
1000-999/1000` — never `RangeNotSatisfiable`/416 as the claim (and
the spec's testable property) requires. -/
theorem unsatisfiable_range_yields_206 :
    resolveRange 1000 "bytes=1000-1005".data = some ⟨1000, 999, true⟩ ∧
    stream_video true (some ⟨1, 1000, []⟩) "bytes=1000-1005" =
      { status := 206, contentLength := some 0,
        contentRange := some "bytes 1000-999/1000",
        acceptRanges := some "bytes", contentDisposition := none } ∧
    (stream_file (encode_id 42) true (some ⟨1, 1000, []⟩)
        "bytes=1000-1005").status = 206 ∧
    (stream_file (encode_id 42) true (some ⟨1, 1000, []⟩)
        "bytes=1000-1005").status ≠ 416 := by
  decide

/-- C4 counterexample: a non-decodable token is answered with 500, not
400 — the `ValueError` raised by `decode_id` is caught by the
handler's blanket `except Exception`, which builds a 500
`JSONResponse`. -/
theorem invalid_token_cex :
    decode_id "zz" = none ∧
    (stream_file "zz" true none "").status = 500 ∧
    (stream_file "zz" true none "").status ≠ 400 := by
  decide

/-- C4 amended: for every request to the streaming relay whose public
token is not decodable, the HTTP response has status 500 (the
`ValueError` is caught by the handler's blanket `except`), not 400. -/
theorem invalid_token_500 (token : String) (hasSession : Bool)
    (doc : Option RemoteDoc) (rangeHeader : String)
    (h : decode_id token = none) :
    stream_file token hasSession doc rangeHeader = errorResponse 500 := by
  simp only [stream_file, h]

theorem invalid_token_500_witness :
    decode_id "gg" = none ∧
    stream_file "gg" true none "" = errorResponse 500 :=
  ⟨by decide, invalid_token_500 "gg" true none "" (by decide)⟩

/-- C5 counterexample: on `src/index.py`'s `/download` endpoint a
successful response carries no `Accept-Ranges` header at all, and its
`Content-Length` is always the full document size (the handler never
reads the `Range` header). -/
theorem download_no_accept_ranges_cex :
    (download_file (encode_id 42) true (some ⟨7, 1000, []⟩)).acceptRanges =
      none ∧
    (download_file (encode_id 42) true (some ⟨7, 1000, []⟩)).status = 200 ∧
    (download_file (encode_id 42) true (some ⟨7, 1000, []⟩)).contentLength =
      some 1000 := by
  decide

/-- C5 amended: `/stream` (index.py) emits `Accept-Ranges: bytes` and
`Content-Length = endInclusive - start + 1` for the resolved range;
`/download` (index.py) sets `Content-Disposition: attachment` but
ignores `Range` entirely — status 200, `Content-Length` = total size,
and no `Accept-Ranges` header; the `api/download.py` variant does emit
`Accept-Ranges: bytes`, a range-resolved `Content-Length`, and the
attachment disposition. -/
theorem endpoint_headers (token : String) (m : Nat)
    (hm : decode_id token = some m) (d : RemoteDoc) (rangeHeader : String)
    (r : ResolvedRange) (hr : resolveRange d.size rangeHeader.data = some r) :
    ((stream_file token true (some d) rangeHeader).contentLength =
        some (r.endInclusive - r.start + 1) ∧
      (stream_file token true (some d) rangeHeader).acceptRanges =
        some "bytes") ∧
    (download_file token true (some d) =
      { status := 200, contentLength := some (d.size : Int),
        contentRange := none, acceptRanges := none,
        contentDisposition :=
          some ("attachment; filename=\"" ++ index_filename d.attrs ++ "\"") }) ∧
    ((download_file_api true (some d) rangeHeader).contentLength =
        some (r.endInclusive - r.start + 1) ∧
      (download_file_api true (some d) rangeHeader).acceptRanges =
        some "bytes" ∧
      (download_file_api true (some d) rangeHeader).contentDisposition =
        some ("attachment; filename=\"" ++ get_filename d.attrs d.id ++ "\"")) := by
  refine ⟨⟨?_, ?_⟩, ?_, ?_, ?_, ?_⟩ <;>
    simp [stream_file, download_file, download_file_api, hm, hr]

theorem endpoint_headers_witness :
    ((stream_file (encode_id 42) true (some ⟨7, 1000, []⟩)
        "bytes=200-299").contentLength = some 100 ∧
      (stream_file (encode_id 42) true (some ⟨7, 1000, []⟩)
        "bytes=200-299").acceptRanges = some "bytes") ∧
    (download_file (encode_id 42) true (some ⟨7, 1000, []⟩) =
      { status := 200, contentLength := some 1000, contentRange := none,
        acceptRanges := none,
        contentDisposition := some "attachment; filename=\"file\"" }) ∧
    ((download_file_api true (some ⟨7, 1000, []⟩)
        "bytes=200-299").contentLength = some 100 ∧
      (download_file_api true (some ⟨7, 1000, []⟩)
        "bytes=200-299").acceptRanges = some "bytes" ∧
      (download_file_api true (some ⟨7, 1000, []⟩)
        "bytes=200-299").contentDisposition =
        some "attachment; filename=\"file_7\"") :=
  endpoint_headers (encode_id 42) 42 (by decide) ⟨7, 1000, []⟩
    "bytes=200-299" ⟨200, 299, true⟩ (by decide)

/-- A plain hexadecimal token: non-empty and hexadecimal digits only —
the reading of "valid hexadecimal" in the claim. -/
def isHexString (s : String) : Bool :=
  !(s.data.isEmpty) && s.data.all (fun c => (hexDigitVal? c).isSome)

/-- C6 counterexample: `decode_id` does not reject every token that is
not valid hexadecimal.  `int(s, 16)` tolerates a `0x`/`0X` prefix,
surrounding whitespace, an explicit sign and underscores between
digits, so all of these non-hexadecimal tokens decode without raising
— the first four to the same id as `"1a"`, the signed one to a
negative id. -/
theorem decode_accepts_nonhex_cex :
    (isHexString "0x1a" = false ∧ decode_id "0x1a" = decode_id "1a" ∧
      decode_id "0x1a" ≠ none) ∧
    (isHexString " 1a" = false ∧ decode_id " 1a" = decode_id "1a") ∧
    (isHexString "+1a" = false ∧ decode_id "+1a" = decode_id "1a") ∧
    (isHexString "1_a" = false ∧ decode_id "1_a" = decode_id "1a") ∧
    (isHexString "-1a" = false ∧ decode_id "-1a" ≠ none) := by
  decide

/-- C6 amended: `decode_id` raises exactly where `int(s, 16)` fails,
which is wider than plain hexadecimal.  Every token containing an
ASCII character that is not a hexadecimal digit, a sign, an
underscore, `x`/`X` or whitespace is rejected with `InvalidToken`; and
no well-formed plain hexadecimal token throws, even when the decoded
id is unknown — the unknown id becomes the handler's downstream 404,
not a codec error.  (The ASCII bound keeps the rejection statement
inside the modelled character set: CPython maps non-ASCII decimal
digits and non-ASCII spaces to ASCII before parsing.) -/
theorem decode_id_tolerant (token : String) :
    ((∃ c ∈ token.data, c.toNat < 128 ∧ hexDigitVal? c = none ∧
        pySpace c = false ∧ c ≠ '+' ∧ c ≠ '-' ∧ c ≠ '_' ∧
        c ≠ 'x' ∧ c ≠ 'X') →
      decode_id token = none) ∧
    (isHexString token = true →
      ∃ m, decode_id token = some m ∧
        (stream_file token true none "").status = 404) := by
  constructor
  · rintro ⟨c, hc, _, hval, hsp, hplus, hminus, hu, hx, hX⟩
    rw [decode_id,
      pyIntHex?_none_of_bad token.data c hc hval hsp hplus hminus hu hx hX]
    rfl
  · intro h
    rw [isHexString, Bool.and_eq_true] at h
    obtain ⟨h1, h2⟩ := h
    have hne : token.data ≠ [] := by simpa using h1
    have hall : ∀ c ∈ token.data, (hexDigitVal? c).isSome = true :=
      List.all_eq_true.mp h2
    have hplain := pyIntHex?_plainHex token.data hne hall
    have hsome := parseDigitsAux_isSome 16 hexDigitVal? token.data 0 hall
    rw [Option.isSome_iff_exists] at hsome
    obtain ⟨v, hv⟩ := hsome
    have hd : decode_id token =
        some (intXor (Int.ofNat v) (SECRET_KEY : Int)) := by
      rw [decode_id, hplain, hv]
      rfl
    refine ⟨intXor (Int.ofNat v) (SECRET_KEY : Int), hd, ?_⟩
    simp [stream_file, hd, errorResponse]

theorem decode_id_tolerant_witness :
    decode_id "qqq" = none ∧
    ∃ m, decode_id "1a" = some m ∧
      (stream_file "1a" true none "").status = 404 :=
  ⟨(decode_id_tolerant "qqq").1 (by decide),
   (decode_id_tolerant "1a").2 (by decide)⟩

/-- C7 counterexample: with the cooldown window active (now 0, window
until 30), `get_client` — the session acquisition actually used by the
`/stream` and `/download` handlers — still performs a network
connection attempt (and raises no rate-limit error): it never reads
`FLOOD_WAIT_UNTIL`. -/
theorem get_client_ignores_cooldown_cex :
    (0 : Nat) < 30 ∧ get_client 30 0 false = true := by
  decide

/-- C7 amended: only `setup_bot` enforces the cooldown — inside the
window it fails fast with `FloodWait Active` carrying the remaining
seconds, leaves the window unchanged and attempts no connection —
while `get_client` ignores the cooldown and attempts a connection
exactly when the global client is not connected. -/
theorem cooldown_gating (now u : Nat) (transport : ConnectOutcome)
    (h : now < u) :
    setup_bot now u transport = ⟨some (u - now), false, u, false⟩ ∧
    ∀ connected : Bool, get_client u now connected = !connected := by
  refine ⟨?_, ?_⟩
  · simp [setup_bot, h]
  · intro connected
    cases connected <;> rfl

theorem cooldown_gating_witness :
    setup_bot 5 35 ConnectOutcome.ok = ⟨some 30, false, 35, false⟩ ∧
    ∀ connected : Bool, get_client 35 5 connected = !connected :=
  cooldown_gating 5 35 ConnectOutcome.ok (by decide)

/-- C8 counterexample: the multi-range request `bytes=0-499,600-999`
at size 1000 is not served as full content: `int('499,600')` raises
`ValueError`, so resolution fails and the endpoint answers 500. -/
theorem multi_range_cex :
    resolveRange 1000 "bytes=0-499,600-999".data = none ∧
    stream_video true (some ⟨1, 1000, []⟩) "bytes=0-499,600-999" =
      errorResponse 500 ∧
    (stream_video true (some ⟨1, 1000, []⟩) "bytes=0-499,600-999").status ≠
      200 := by
  decide

theorem resolveRange_multi_none (S a b c d : Nat) :
    resolveRange S (renderMultiRangeHeader a b c d).data = none := by
  have hnb : ∀ ch ∈ natToDecChars a ++ '-' ::
      (natToDecChars b ++ ',' :: (natToDecChars c ++ '-' :: natToDecChars d)),
      ch ≠ 'b' := by
    intro ch hch
    rcases List.mem_append.mp hch with h | h
    · exact natToDecChars_ne_b a ch h
    · rcases List.mem_cons.mp h with h | h
      · subst h; decide
      · rcases List.mem_append.mp h with h | h
        · exact natToDecChars_ne_b b ch h
        · rcases List.mem_cons.mp h with h | h
          · subst h; decide
          · rcases List.mem_append.mp h with h | h
            · exact natToDecChars_ne_b c ch h
            · rcases List.mem_cons.mp h with h | h
              · subst h; decide
              · exact natToDecChars_ne_b d ch h
  have hassoc : natToDecChars b ++ ',' ::
      (natToDecChars c ++ '-' :: natToDecChars d) =
      (natToDecChars b ++ ',' :: natToDecChars c) ++ '-' :: natToDecChars d := by
    simp
  have hnod : '-' ∉ natToDecChars b ++ ',' :: natToDecChars c := by
    intro hmem
    rcases List.mem_append.mp hmem with h | h
    · exact natToDecChars_no_dash b h
    · rcases List.mem_cons.mp h with h | h
      · exact absurd h (by decide)
      · exact natToDecChars_no_dash c h
  have hp1 : decToNat? (natToDecChars b ++ ',' :: natToDecChars c) = none := by
    rw [decToNat?, if_neg (by simp)]
    exact parseDigitsAux_eq_none 10 decDigitVal? _ _ ','
      (List.mem_append.mpr (Or.inr (List.mem_cons_self _ _))) (by decide)
  show resolveRange S ('b' :: 'y' :: 't' :: 'e' :: 's' :: '=' ::
      (natToDecChars a ++ '-' ::
        (natToDecChars b ++ ',' :: (natToDecChars c ++ '-' :: natToDecChars d)))) = _
  rw [resolveRange.eq_def, if_neg (List.cons_ne_nil _ _),
    replaceBytes_bytesEq, replaceBytes_id _ hnb, hassoc,
    splitOnDash_append _ _ (natToDecChars_no_dash a),
    splitOnDash_append _ _ hnod]
  simp [natToDecChars_ne_nil, decToNat?_natToDecChars, hp1]

/-- C8 amended: a multi-range header `bytes=<a>-<b>,<c>-<d>` makes the
range parse raise (`int` rejects the piece `<b>,<c>`), so the request
is answered 500 by the handlers' blanket `except` — it is neither an
explicit range error nor a full-content fallback. -/
theorem multi_range_500 (S a b c d i : Nat) (attrs : List DocAttr) :
    resolveRange S (renderMultiRangeHeader a b c d).data = none ∧
    stream_video true (some ⟨i, S, attrs⟩) (renderMultiRangeHeader a b c d) =
      errorResponse 500 ∧
    download_file_api true (some ⟨i, S, attrs⟩)
      (renderMultiRangeHeader a b c d) = errorResponse 500 := by
  have h := resolveRange_multi_none S a b c d
  exact ⟨h, by simp [stream_video, h], by simp [download_file_api, h]⟩

/-- C9 counterexample: the `src/index.py` wrapper — the one used by
the `/stream/{token}` and `/download/{token}` endpoints — never
releases the session in the wrapper: after a fully consumed
two-chunk stream the release count is 0, not exactly 1. -/
theorem index_wrapper_no_release_cex :
    runWrapperIndex [Pull.chunk, Pull.chunk] 5 = ⟨2, 0⟩ ∧
    (runWrapperIndex [Pull.chunk, Pull.chunk] 5).released ≠ 1 := by
  decide

/-- C9 amended: the `api/` wrapper releases the session exactly once
on every exit path (normal completion, consumer disconnect, failing
fetch) and pulls no more chunks than the consumer accepted nor than
the store produced, while the `src/index.py` wrapper deliberately
never disconnects (the global client is pooled). -/
theorem wrapper_release_discipline (fetches : List Pull) (budget : Nat) :
    (runWrapperApi fetches budget).released = 1 ∧
    (runWrapperApi fetches budget).pulls ≤ budget ∧
    (runWrapperApi fetches budget).pulls ≤ fetches.length ∧
    (runWrapperIndex fetches budget).released = 0 := by
  induction fetches generalizing budget with
  | nil =>
    cases budget with
    | zero => exact ⟨rfl, Nat.le_refl 0, Nat.le_refl 0, rfl⟩
    | succ k => exact ⟨rfl, Nat.zero_le _, Nat.le_refl 0, rfl⟩
  | cons p rest ih =>
    cases p with
    | fetchError =>
      cases budget with
      | zero => exact ⟨rfl, Nat.le_refl 0, Nat.zero_le _, rfl⟩
      | succ k =>
        exact ⟨rfl, Nat.succ_le_succ (Nat.zero_le k),
          Nat.succ_le_succ (Nat.zero_le _), rfl⟩
    | chunk =>
      cases budget with
      | zero => exact ⟨rfl, Nat.le_refl 0, Nat.zero_le _, rfl⟩
      | succ k =>
        obtain ⟨h1, h2, h3, h4⟩ := ih k
        exact ⟨h1, Nat.succ_le_succ h2, Nat.succ_le_succ h3, h4⟩

theorem get_filename_all_other :
    ∀ (attrs : List DocAttr) (docId : Nat),
      (∀ a ∈ attrs, a = DocAttr.other) →
      get_filename attrs docId = "file_" ++ natToDec docId := by
  intro attrs
  induction attrs with
  | nil => intro docId _; rfl
  | cons a rest ih =>
    intro docId h
    have ha := h a (List.mem_cons_self a rest)
    subst ha
    exact ih docId fun x hx => h x (List.mem_cons_of_mem _ hx)

theorem index_filename_all_other :
    ∀ (attrs : List DocAttr), (∀ a ∈ attrs, a = DocAttr.other) →
      index_filename attrs = "file" := by
  intro attrs
  induction attrs with
  | nil => intro _; rfl
  | cons a rest ih =>
    intro h
    have ha := h a (List.mem_cons_self a rest)
    subst ha
    exact ih fun x hx => h x (List.mem_cons_of_mem _ hx)

/-- C10: for every stored document carrying no `file_name` attribute,
both download paths still produce a non-empty filename for the
attachment disposition — `file_<document id>` in `api/download.py`'s
`get_filename`, and the literal `file` in `src/index.py`'s
`download_file`. -/
theorem filename_fallback (attrs : List DocAttr) (docId : Nat)
    (h : ∀ a ∈ attrs, a = DocAttr.other) :
    get_filename attrs docId = "file_" ++ natToDec docId ∧
    get_filename attrs docId ≠ "" ∧
    index_filename attrs = "file" ∧
    index_filename attrs ≠ "" := by
  have hg := get_filename_all_other attrs docId h
  have hi := index_filename_all_other attrs h
  refine ⟨hg, ?_, hi, ?_⟩
  · rw [hg]
    intro heq
    have h2 := congrArg String.data heq
    exact List.noConfusion
      (show ('f' :: 'i' :: 'l' :: 'e' :: '_' :: natToDecChars docId) =
        ([] : List Char) from h2)
  · rw [hi]
    decide

theorem filename_fallback_witness :
    get_filename [DocAttr.other] 7 = "file_" ++ natToDec 7 ∧
    get_filename [DocAttr.other] 7 ≠ "" ∧
    index_filename [DocAttr.other] = "file" ∧
    index_filename [DocAttr.other] ≠ "" :=
  filename_fallback [DocAttr.other] 7 (by decide)

end VCS
